import Mathlib

/-!
Shallow embedding of the `countme` instance-counting engine
(`src/lib.rs` and `src/imp.rs`).

Modelling conventions:
- `TypeId` (an opaque, comparable, hashable type key) is modelled as `Nat`;
  a thread identity is likewise a `Nat` (the Rust code reaches the current
  thread's cache implicitly through `thread_local!`; here the acting thread
  is an explicit argument).
- `AtomicUsize` counters are modelled as `Nat` with exact arithmetic, the
  abstraction level of the data model ("unsigned integer"); relaxed-memory
  interleavings are not modelled — every engine operation is one atomic step,
  which is the sequential semantics of the code.
- `Arc<Store>` sharing: a thread-local cache entry is an alias of the
  registry-owned cell, so the caches are modelled as the set of
  (thread, key) pairs present, and every cell mutation is performed on the
  registry's copy.
- The `DashMap` registry is modelled as an association list with unique
  keys; a freshly created cell is appended at the end (`DashMap` itself
  promises no iteration order).
-/

namespace Countme

/-- The snapshot returned to callers (`struct Counts`, `src/lib.rs`
lines 57-66): total constructions, historical peak of live, current live. -/
structure Counts where
  total : Nat
  max_live : Nat
  live : Nat
  deriving DecidableEq, Repr

/-- The per-type counter cell (`struct Store`, `src/imp.rs` lines 145-151).
`#[derive(Default)]` gives all-zero counters and an empty name. -/
structure Store where
  total : Nat := 0
  max_live : Nat := 0
  live : Nat := 0
  name : List Char := []
  deriving DecidableEq, Repr

/-- `Store::inc` (`src/imp.rs` lines 154-158): `total.fetch_add(1)`, then
`live = live.fetch_add(1) + 1`, then `max_live.fetch_max(live)`. -/
def Store.inc (s : Store) : Store :=
  let s1 : Store := { s with total := s.total + 1 }
  let live := s1.live + 1
  let s2 : Store := { s1 with live := live }
  { s2 with max_live := max s2.max_live live }

/-- `Store::dec` (`src/imp.rs` lines 160-162): `live.fetch_sub(1)`; the
previous value returned by `fetch_sub` is discarded. Rust wraps on
underflow; `Nat` subtraction truncates — no claim below decrements a cell
whose live count is zero, so the difference is immaterial. -/
def Store.dec (s : Store) : Store :=
  { s with live := s.live - 1 }

/-- The full signature of `fn dec(&self)`: its return type is the unit type.
`Store.decRet` records both the state change and the (empty) return value. -/
def Store.decRet (s : Store) : Store × Unit :=
  (s.dec, ())

/-- `Store::read` (`src/imp.rs` lines 164-170): three independent loads. -/
def Store.read (s : Store) : Counts :=
  { total := s.total, max_live := s.max_live, live := s.live }

/-- `Store::type_name` (`src/imp.rs` lines 172-174). -/
def Store.type_name (s : Store) : List Char :=
  s.name

/-- First-match lookup in the registry association list (models
`DashMap::get`; the registry keeps one entry per key). -/
def lookupStore : List (Nat × Store) → Nat → Option Store
  | [], _ => none
  | (j, s) :: rest, k => if j = k then some s else lookupStore rest k

/-- Update the (first) entry for a key in place, if present (models a
mutation through a shared reference to the registry-owned cell). -/
def updateStore : List (Nat × Store) → Nat → (Store → Store) → List (Nat × Store)
  | [], _, _ => []
  | (j, s) :: rest, k, f =>
      if j = k then (j, f s) :: rest else (j, s) :: updateStore rest k f

/-- The process-wide state: the `ENABLE` flag (`src/imp.rs` line 17), the
global registry (`global_store()`, lines 19-39) and the thread-local caches
(`LOCAL`, lines 41-43), the latter as the set of (thread, key) pairs cached. -/
structure Engine where
  enabled : Bool
  global : List (Nat × Store)
  locals : List (Nat × Nat)
  deriving DecidableEq, Repr

/-- Does thread `t`'s local cache contain an entry for key `k`
(`local.borrow().get(&key)`)? -/
def Engine.cachedAt (e : Engine) (t k : Nat) : Bool :=
  decide ((t, k) ∈ e.locals)

/-- `fn enable` (`src/imp.rs` lines 45-47). -/
def Engine.enable (e : Engine) (yes : Bool) : Engine :=
  { e with enabled := yes }

/-- `fn do_inc` (`src/imp.rs` lines 90-124), acting thread `t`.
Fast path: cache hit, `store.inc()` on the shared cell. Miss with the key
in the registry: `store.inc()` and cache the reference. Miss everywhere:
`entry(key).or_insert_with(|| Arc::new(Store { name, ..default }))`, then
`store.inc()` on the fresh cell, then cache it; appending the
already-incremented cell is the same registry state. -/
def Engine.do_inc (e : Engine) (t k : Nat) (n : List Char) : Engine :=
  if e.cachedAt t k then
    { e with global := updateStore e.global k Store.inc }
  else
    match lookupStore e.global k with
    | some _ =>
        { e with global := updateStore e.global k Store.inc,
                 locals := (t, k) :: e.locals }
    | none =>
        { e with global := e.global ++ [(k, Store.inc { name := n })],
                 locals := (t, k) :: e.locals }

/-- `fn inc` (`src/imp.rs` lines 84-89): gated on the enable flag. -/
def Engine.inc (e : Engine) (t k : Nat) (n : List Char) : Engine :=
  if e.enabled then e.do_inc t k n else e

/-- `fn do_dec` (`src/imp.rs` lines 60-82), acting thread `t`, exactly as
written: the cache-hit path calls `store.dec()`, but the registry-fallback
path (lines 73-78) inserts the reference into the local cache and then
calls `store.inc()` — this mirrors line 76 of the source verbatim. A key
absent from cache and registry falls through and nothing happens. -/
def Engine.do_dec (e : Engine) (t k : Nat) : Engine :=
  if e.cachedAt t k then
    { e with global := updateStore e.global k Store.dec }
  else
    match lookupStore e.global k with
    | some _ =>
        { e with global := updateStore e.global k Store.inc,
                 locals := (t, k) :: e.locals }
    | none => e

/-- `fn dec` (`src/imp.rs` lines 54-59): gated on the enable flag. -/
def Engine.dec (e : Engine) (t k : Nat) : Engine :=
  if e.enabled then e.do_dec t k else e

/-- `fn do_get` (`src/imp.rs` lines 129-131):
`global_store().entry(key).or_default().value().read()` — inserts a
default cell (name `""`) when the key is absent, then reads it; the
result is the possibly-grown registry paired with the snapshot. Note the
operation is not gated on the enable flag. -/
def Engine.do_get (e : Engine) (k : Nat) : Engine × Counts :=
  match lookupStore e.global k with
  | some s => (e, s.read)
  | none => ({ e with global := e.global ++ [(k, {})] }, Store.read {})

/-- The snapshot value `fn get` returns (`src/imp.rs` lines 126-128). -/
def Engine.get (e : Engine) (k : Nat) : Counts :=
  (e.do_get k).2

/-- The sort key relation of `entries.sort_by_key(|(name, _counts)| *name)`
(`src/imp.rs` line 141): compare entries by display name. -/
def entryLe (a b : List Char × Counts) : Prop :=
  a.1 ≤ b.1

instance : DecidableRel entryLe :=
  fun a b => inferInstanceAs (Decidable (a.1 ≤ b.1))

/-- Rust's `sort_by_key` is a stable sort; a stable insertion sort by the
name key computes the same list. -/
def sortEntries (l : List (List Char × Counts)) : List (List Char × Counts) :=
  List.insertionSort entryLe l

/-- `fn get_all` (`src/imp.rs` lines 133-143): map every registry cell to
`(type_name, read())` and sort by name. The wrapping `AllCounts` struct is
just this entries vector. -/
def Engine.get_all (e : Engine) : List (List Char × Counts) :=
  sortEntries (e.global.map fun p => (p.2.type_name, p.2.read))

/-- One public operation of the engine, with the acting thread explicit. -/
inductive Op where
  | inc (t k : Nat) (n : List Char)
  | dec (t k : Nat)
  | get (k : Nat)
  | getAll
  | enable (b : Bool)
  deriving DecidableEq, Repr

/-- The state transition of one operation. `get` keeps its registry
insertion; `getAll` only reads. -/
def Engine.step (e : Engine) : Op → Engine
  | Op.inc t k n => e.inc t k n
  | Op.dec t k => e.dec t k
  | Op.get k => (e.do_get k).1
  | Op.getAll => e
  | Op.enable b => e.enable b

/-- Run a sequence of operations. -/
def Engine.run (e : Engine) (ops : List Op) : Engine :=
  ops.foldl Engine.step e

/-- Is the operation a guard construction or destruction? -/
def Op.isGuard : Op → Bool
  | Op.inc _ _ _ => true
  | Op.dec _ _ => true
  | _ => false

/-- Is the operation a guard construction or destruction of key `a`? -/
def Op.onKey (a : Nat) : Op → Bool
  | Op.inc _ j _ => j == a
  | Op.dec _ j => j == a
  | _ => false

/-- Number of guard constructions of key `k` in a trace. -/
def consCount (k : Nat) : List Op → Nat
  | [] => 0
  | Op.inc _ j _ :: rest => (if j = k then 1 else 0) + consCount k rest
  | _ :: rest => consCount k rest

/-- Running count `cur` and historical peak `mx` of simultaneously live
guards of key `k` along a trace: a construction adds one live guard, a
destruction removes one. -/
def peakLiveAux (k : Nat) : Nat → Nat → List Op → Nat
  | _, mx, [] => mx
  | cur, mx, Op.inc _ j _ :: rest =>
      if j = k then peakLiveAux k (cur + 1) (max mx (cur + 1)) rest
      else peakLiveAux k cur mx rest
  | cur, mx, Op.dec _ j :: rest =>
      if j = k then peakLiveAux k (cur - 1) mx rest
      else peakLiveAux k cur mx rest
  | cur, mx, _ :: rest => peakLiveAux k cur mx rest

/-- Peak number of simultaneously live guards of key `k` over a trace. -/
def peakLive (k : Nat) (ops : List Op) : Nat :=
  peakLiveAux k 0 0 ops

/-- Does one operation create a registry cell for key `k` when it is absent?
A guard construction creates it only while counting is enabled; a `get`
creates it unconditionally (`entry(key).or_default()`). -/
def stepCreates (en : Bool) (k : Nat) : Op → Bool
  | Op.inc _ j _ => en && decide (k = j)
  | Op.get j => decide (k = j)
  | _ => false

/-- The enable flag after one operation. -/
def opEnabled (en : Bool) : Op → Bool
  | Op.enable b => b
  | _ => en

/-- Does some operation of the trace create a registry cell for key `k`
(when every earlier operation finds it absent)? -/
def createsKey (en : Bool) (k : Nat) : List Op → Bool
  | [] => false
  | op :: rest => stepCreates en k op || createsKey (opEnabled en op) k rest

/-- Well-formedness: every thread-locally cached key has a registry cell
(cache entries are clones of `Arc`s handed out by the registry, and the
registry never removes an entry). -/
def Engine.WF (e : Engine) : Prop :=
  ∀ t k, (t, k) ∈ e.locals → (lookupStore e.global k).isSome = true

/-- Strict version of the entry ordering, used to state that sorting is
deterministic when display names are pairwise distinct. -/
def entryLt (a b : List Char × Counts) : Prop :=
  a.1 < b.1

/-- Looking a key up after an in-place update: only the updated key's cell
changes, and it changes by exactly the update function. -/
theorem lookupStore_update (g : List (Nat × Store)) (k j : Nat) (f : Store → Store) :
    lookupStore (updateStore g k f) j =
      if k = j then (lookupStore g j).map f else lookupStore g j := by
  induction g with
  | nil => simp [lookupStore, updateStore]
  | cons p rest ih =>
    obtain ⟨i, s⟩ := p
    by_cases hik : i = k
    · subst hik
      by_cases hij : i = j
      · subst hij
        simp [lookupStore, updateStore]
      · simp [lookupStore, updateStore, hij]
    · by_cases hij : i = j
      · subst hij
        have hkj : ¬ k = i := fun h => hik h.symm
        simp [lookupStore, updateStore, hik, hkj]
      · simp [lookupStore, updateStore, hik, hij, ih]

/-- Lookup distributes over registry concatenation: the earlier entries
win. -/
theorem lookupStore_append (g l : List (Nat × Store)) (j : Nat) :
    lookupStore (g ++ l) j =
      match lookupStore g j with
      | some s => some s
      | none => lookupStore l j := by
  induction g with
  | nil => simp [lookupStore]
  | cons p rest ih =>
    obtain ⟨i, s⟩ := p
    by_cases hij : i = j <;> simp [lookupStore, hij, ih]

/-- An in-place update never changes which keys have a cell. -/
theorem isSome_lookupStore_update (g : List (Nat × Store)) (k : Nat) (f : Store → Store)
    (j : Nat) :
    (lookupStore (updateStore g k f) j).isSome = (lookupStore g j).isSome := by
  rw [lookupStore_update]
  by_cases h : k = j
  · cases lookupStore g j <;> simp [h]
  · simp [h]

/-- Updating one key's cell leaves every other key's lookup unchanged. -/
theorem lookupStore_update_ne_aux (g : List (Nat × Store)) (k b : Nat) {f : Store → Store}
    (hkb : k ≠ b) :
    lookupStore (updateStore g k f) b = lookupStore g b := by
  rw [lookupStore_update]
  simp [hkb]

/-- Appending a cell for a fresh key leaves every other key's lookup
unchanged. -/
theorem lookupStore_append_single_ne (g : List (Nat × Store)) (a b : Nat) (s : Store)
    (hab : a ≠ b) :
    lookupStore (g ++ [(a, s)]) b = lookupStore g b := by
  rw [lookupStore_append]
  rcases lookupStore g b with _ | s2
  · simp [lookupStore, hab]
  · rfl

/-- A key with a cell keeps exactly that cell under concatenation. -/
theorem lookupStore_append_of_isSome (g l : List (Nat × Store)) (j : Nat)
    (h : (lookupStore g j).isSome = true) :
    lookupStore (g ++ l) j = lookupStore g j := by
  rw [lookupStore_append]
  rcases hx : lookupStore g j with _ | s
  · rw [hx] at h
    exact absurd h (by simp)
  · rfl

/-- A guard operation on key `a` never changes key `b`'s registry lookup
when `b ≠ a`, whichever path (cache hit, registry fallback, fresh cell,
disabled no-op) the engine takes. -/
theorem step_preserves_other_key (e : Engine) (a b : Nat) (op : Op)
    (hab : b ≠ a) (hop : Op.onKey a op = true) :
    lookupStore (Engine.step e op).global b = lookupStore e.global b := by
  have hab2 : a ≠ b := fun h => hab h.symm
  cases op with
  | inc t k n =>
    have hk : k = a := by simpa [Op.onKey] using hop
    subst hk
    simp only [Engine.step, Engine.inc]
    by_cases hen : e.enabled = true
    · rw [if_pos hen]
      unfold Engine.do_inc
      split
      · exact lookupStore_update_ne_aux e.global k b hab2
      · rcases hg : lookupStore e.global k with _ | s <;> simp only [hg]
        · exact lookupStore_append_single_ne e.global k b _ hab2
        · exact lookupStore_update_ne_aux e.global k b hab2
    · rw [if_neg hen]
  | dec t k =>
    have hk : k = a := by simpa [Op.onKey] using hop
    subst hk
    simp only [Engine.step, Engine.dec]
    by_cases hen : e.enabled = true
    · rw [if_pos hen]
      unfold Engine.do_dec
      split
      · exact lookupStore_update_ne_aux e.global k b hab2
      · rcases hg : lookupStore e.global k with _ | s <;> simp only [hg]
        exact lookupStore_update_ne_aux e.global k b hab2
    · rw [if_neg hen]
  | get k => simp [Op.onKey] at hop
  | getAll => simp [Op.onKey] at hop
  | enable bb => simp [Op.onKey] at hop

/-- The snapshot `get` returns depends only on the key's registry lookup. -/
theorem get_eq_of_lookup_eq (e1 e2 : Engine) (b : Nat)
    (h : lookupStore e1.global b = lookupStore e2.global b) :
    Engine.get e1 b = Engine.get e2 b := by
  unfold Engine.get Engine.do_get
  rw [h]
  rcases hx : lookupStore e2.global b with _ | s <;> simp [hx]

/-- C8: counters of distinct types are independent — any sequence of guard
constructions and destructions of type `a` (on any threads, enabled or
not) leaves the snapshot of a different type `b` unchanged. -/
theorem ops_on_one_type_leave_others (e : Engine) (a b : Nat) (ops : List Op)
    (hab : b ≠ a) (hops : ops.all (Op.onKey a) = true) :
    Engine.get (Engine.run e ops) b = Engine.get e b := by
  induction ops generalizing e with
  | nil => rfl
  | cons op rest ih =>
    rw [List.all_cons, Bool.and_eq_true] at hops
    have h1 : Engine.run e (op :: rest) = Engine.run (Engine.step e op) rest := rfl
    rw [h1, ih (Engine.step e op) hops.2]
    exact get_eq_of_lookup_eq _ _ _ (step_preserves_other_key e a b op hab hops.1)

/-- C8 witness: constructing and destroying guards of type 1 on two
different threads leaves type 2's snapshot at {total 5, max_live 3,
live 1}. -/
theorem ops_on_one_type_leave_others_witness :
    Engine.get
        (Engine.run ⟨true, [(2, ⟨5, 3, 1, ['B']⟩)], []⟩ [Op.inc 4 1 ['A'], Op.dec 9 1]) 2 =
      Engine.get ⟨true, [(2, ⟨5, 3, 1, ['B']⟩)], []⟩ 2 :=
  ops_on_one_type_leave_others ⟨true, [(2, ⟨5, 3, 1, ['B']⟩)], []⟩ 1 2
    [Op.inc 4 1 ['A'], Op.dec 9 1] (by decide) (by decide)

/-- C7: while the enable flag is false, constructing and destroying any
number of guards of any types changes nothing — not the registry, not any
cell, not any cache — so every type's snapshot is exactly what it was;
enabling afterwards yields the prior state with only the flag set. -/
theorem disabled_guard_ops_are_noops (e : Engine) (ops : List Op)
    (hdis : e.enabled = false) (hops : ops.all Op.isGuard = true) :
    Engine.run e ops = e ∧
    (∀ k, Engine.get (Engine.run e ops) k = Engine.get e k) ∧
    Engine.run e (ops ++ [Op.enable true]) = { e with enabled := true } := by
  have hrun : Engine.run e ops = e := by
    induction ops with
    | nil => rfl
    | cons op rest ih =>
      rw [List.all_cons, Bool.and_eq_true] at hops
      have hstep : Engine.step e op = e := by
        cases op with
        | inc t k n => simp [Engine.step, Engine.inc, hdis]
        | dec t k => simp [Engine.step, Engine.dec, hdis]
        | get k => simp [Op.isGuard] at hops
        | getAll => simp [Op.isGuard] at hops
        | enable bb => simp [Op.isGuard] at hops
      have h1 : Engine.run e (op :: rest) = Engine.run (Engine.step e op) rest := rfl
      rw [h1, hstep, ih hops.2]
  refine ⟨hrun, fun k => by rw [hrun], ?_⟩
  unfold Engine.run
  rw [List.foldl_append]
  have h2 : List.foldl Engine.step e ops = e := hrun
  rw [h2]
  rfl

/-- C7 witness: with counting disabled, constructing and destroying a
guard of type 3 leaves the state untouched, and enabling afterwards only
sets the flag. -/
theorem disabled_guard_ops_are_noops_witness :
    Engine.run ⟨false, [(3, ⟨1, 1, 1, ['A']⟩)], []⟩ [Op.inc 1 3 ['A'], Op.dec 1 3] =
        ⟨false, [(3, ⟨1, 1, 1, ['A']⟩)], []⟩ ∧
    (∀ k, Engine.get
        (Engine.run ⟨false, [(3, ⟨1, 1, 1, ['A']⟩)], []⟩ [Op.inc 1 3 ['A'], Op.dec 1 3]) k =
      Engine.get ⟨false, [(3, ⟨1, 1, 1, ['A']⟩)], []⟩ k) ∧
    Engine.run ⟨false, [(3, ⟨1, 1, 1, ['A']⟩)], []⟩
        ([Op.inc 1 3 ['A'], Op.dec 1 3] ++ [Op.enable true]) =
      ⟨true, [(3, ⟨1, 1, 1, ['A']⟩)], []⟩ :=
  disabled_guard_ops_are_noops ⟨false, [(3, ⟨1, 1, 1, ['A']⟩)], []⟩
    [Op.inc 1 3 ['A'], Op.dec 1 3] (by decide) (by decide)

/-- The increment engine operation never touches the enable flag. -/
theorem enabled_do_inc (e : Engine) (t k : Nat) (n : List Char) :
    (e.do_inc t k n).enabled = e.enabled := by
  unfold Engine.do_inc
  split
  · rfl
  · split <;> rfl

/-- The decrement engine operation never touches the enable flag. -/
theorem enabled_do_dec (e : Engine) (t k : Nat) :
    (e.do_dec t k).enabled = e.enabled := by
  unfold Engine.do_dec
  split
  · rfl
  · split <;> rfl

/-- Reading a snapshot never touches the enable flag. -/
theorem enabled_do_get (e : Engine) (k : Nat) :
    ((e.do_get k).1).enabled = e.enabled := by
  unfold Engine.do_get
  split <;> rfl

/-- The enable flag after one step is given by `opEnabled`. -/
theorem enabled_step (e : Engine) (op : Op) :
    (Engine.step e op).enabled = opEnabled e.enabled op := by
  cases op with
  | inc t k n =>
    simp only [Engine.step, Engine.inc, opEnabled]
    split
    · exact enabled_do_inc e t k n
    · rfl
  | dec t k =>
    simp only [Engine.step, Engine.dec, opEnabled]
    split
    · exact enabled_do_dec e t k
    · rfl
  | get k => exact enabled_do_get e k
  | getAll => rfl
  | enable bb => rfl

/-- Which keys have a cell after `do_inc`: exactly the old ones plus the
incremented key. The well-formedness hypothesis covers the cache-hit path,
where the cached `Arc` aliases a registry cell. -/
theorem do_inc_isSome (e : Engine) (t k : Nat) (n : List Char) (j : Nat)
    (hwf : Engine.WF e) :
    (lookupStore (e.do_inc t k n).global j).isSome
      = ((lookupStore e.global j).isSome || decide (j = k)) := by
  unfold Engine.do_inc
  split
  next hc =>
    simp only [isSome_lookupStore_update]
    by_cases hjk : j = k
    · subst hjk
      rw [hwf t j (of_decide_eq_true hc)]
      simp
    · simp [hjk]
  next hc =>
    split
    next s heq =>
      simp only [isSome_lookupStore_update]
      by_cases hjk : j = k
      · subst hjk
        simp [heq]
      · simp [hjk]
    next heq =>
      by_cases hjk : j = k
      · subst hjk
        simp only []
        rw [lookupStore_append, heq]
        simp [lookupStore]
      · simp only []
        rw [lookupStore_append_single_ne e.global k j _ fun h => hjk h.symm]
        simp [hjk]

/-- `do_dec` never creates or removes a cell, whichever path it takes. -/
theorem do_dec_isSome (e : Engine) (t k j : Nat) :
    (lookupStore (e.do_dec t k).global j).isSome = (lookupStore e.global j).isSome := by
  unfold Engine.do_dec
  split
  · simp only [isSome_lookupStore_update]
  · split
    next s heq => simp only [isSome_lookupStore_update]
    next heq => rfl

/-- Which keys have a cell after `do_get`: exactly the old ones plus the
queried key (`entry(key).or_default()` creates it when absent). -/
theorem do_get_isSome (e : Engine) (k j : Nat) :
    (lookupStore ((e.do_get k).1).global j).isSome
      = ((lookupStore e.global j).isSome || decide (j = k)) := by
  unfold Engine.do_get
  split
  next s heq =>
    by_cases hjk : j = k
    · subst hjk
      simp [heq]
    · simp [hjk]
  next heq =>
    by_cases hjk : j = k
    · subst hjk
      simp only []
      rw [lookupStore_append, heq]
      simp [lookupStore]
    · simp only []
      rw [lookupStore_append_single_ne e.global k j _ fun h => hjk h.symm]
      simp [hjk]

/-- Every engine step preserves well-formedness: a cached (thread, key)
pair always has a registry cell. -/
theorem WF_step (e : Engine) (op : Op) (hwf : Engine.WF e) :
    Engine.WF (Engine.step e op) := by
  cases op with
  | inc t k n =>
    simp only [Engine.step, Engine.inc]
    split
    · unfold Engine.do_inc
      split
      · intro t2 k2 hmem
        rw [isSome_lookupStore_update]
        exact hwf t2 k2 hmem
      · split
        next s heq =>
          intro t2 k2 hmem
          rw [isSome_lookupStore_update]
          rcases List.mem_cons.mp hmem with heq2 | hmem2
          · obtain ⟨h1, h2⟩ := Prod.mk.injEq .. ▸ heq2
            subst h2
            simp [heq]
          · exact hwf t2 k2 hmem2
        next heq =>
          intro t2 k2 hmem
          rcases List.mem_cons.mp hmem with heq2 | hmem2
          · obtain ⟨h1, h2⟩ := Prod.mk.injEq .. ▸ heq2
            subst h2
            rw [lookupStore_append, heq]
            simp [lookupStore]
          · rw [lookupStore_append_of_isSome e.global _ k2 (hwf t2 k2 hmem2)]
            exact hwf t2 k2 hmem2
    · exact hwf
  | dec t k =>
    simp only [Engine.step, Engine.dec]
    split
    · unfold Engine.do_dec
      split
      · intro t2 k2 hmem
        rw [isSome_lookupStore_update]
        exact hwf t2 k2 hmem
      · split
        next s heq =>
          intro t2 k2 hmem
          rw [isSome_lookupStore_update]
          rcases List.mem_cons.mp hmem with heq2 | hmem2
          · obtain ⟨h1, h2⟩ := Prod.mk.injEq .. ▸ heq2
            subst h2
            simp [heq]
          · exact hwf t2 k2 hmem2
        next heq => exact hwf
    · exact hwf
  | get k =>
    simp only [Engine.step]
    unfold Engine.do_get
    split
    next s heq => exact hwf
    next heq =>
      intro t2 k2 hmem
      rw [lookupStore_append_of_isSome e.global _ k2 (hwf t2 k2 hmem)]
      exact hwf t2 k2 hmem
  | getAll => exact hwf
  | enable bb => exact hwf

/-- Which keys have a registry cell after one step: the old ones, plus the
key of an enabled construction, plus the key of a `get`. -/
theorem step_isSome (e : Engine) (op : Op) (j : Nat) (hwf : Engine.WF e) :
    (lookupStore (Engine.step e op).global j).isSome
      = ((lookupStore e.global j).isSome || stepCreates e.enabled j op) := by
  cases op with
  | inc t k n =>
    simp only [Engine.step, Engine.inc, stepCreates]
    cases hen : e.enabled with
    | false => simp
    | true =>
      rw [if_pos rfl, do_inc_isSome e t k n j hwf]
      simp
  | dec t k =>
    simp only [Engine.step, Engine.dec, stepCreates]
    cases hen : e.enabled with
    | false => simp
    | true =>
      rw [if_pos rfl, do_dec_isSome]
      simp
  | get k => exact do_get_isSome e k j
  | getAll => simp [Engine.step, stepCreates]
  | enable bb => simp [Engine.step, Engine.enable, stepCreates]

/-- Which keys have a registry cell after a whole trace: the old ones plus
exactly those `createsKey` names. -/
theorem run_isSome (ops : List Op) (e : Engine) (j : Nat) (hwf : Engine.WF e) :
    (lookupStore (Engine.run e ops).global j).isSome
      = ((lookupStore e.global j).isSome || createsKey e.enabled j ops) := by
  induction ops generalizing e with
  | nil => simp [Engine.run, createsKey]
  | cons op rest ih =>
    have h1 : Engine.run e (op :: rest) = Engine.run (Engine.step e op) rest := rfl
    rw [h1, ih (Engine.step e op) (WF_step e op hwf), step_isSome e op j hwf,
      enabled_step, createsKey, Bool.or_assoc]

/-- C2 amended: starting from the empty registry, a type has a registry
cell after a trace exactly when it was constructed at least once while
counting was enabled or was passed to `get()` at least once (`createsKey`);
and `get_all()` returns one entry per registry cell — so a type only ever
passed to `get()` does appear, with an all-zero snapshot, unlike what the
claim states. -/
theorem get_all_covers_created_types (b : Bool) (ops : List Op) (k : Nat) :
    (lookupStore (Engine.run ⟨b, [], []⟩ ops).global k).isSome = createsKey b k ops ∧
    (Engine.run ⟨b, [], []⟩ ops).get_all.length
      = (Engine.run ⟨b, [], []⟩ ops).global.length := by
  constructor
  · have hwf : Engine.WF ⟨b, [], []⟩ := fun t j h => absurd h (List.not_mem_nil _)
    have h := run_isSome ops ⟨b, [], []⟩ k hwf
    simpa [lookupStore] using h
  · unfold Engine.get_all sortEntries
    rw [(List.perm_insertionSort entryLe _).length_eq, List.length_map]

/-- C1: evaluation of the code at the failing input. Before: type 7 has the
snapshot {total 1, max_live 1, live 1} and only thread 1 has it cached.
Thread 2 then destroys one guard of type 7. The claim requires the snapshot
{total 1, max_live 1, live 0}; the code takes the registry-fallback path of
`do_dec` and calls `store.inc()` (src/imp.rs line 76), producing
{total 2, max_live 2, live 2}. -/
theorem dec_cold_cache_increments_counts :
    Engine.get ⟨true, [(7, ⟨1, 1, 1, ['T']⟩)], [(1, 7)]⟩ 7 = ⟨1, 1, 1⟩ ∧
    Engine.get (Engine.dec ⟨true, [(7, ⟨1, 1, 1, ['T']⟩)], [(1, 7)]⟩ 2 7) 7 = ⟨2, 2, 2⟩ :=
  ⟨rfl, rfl⟩

/-- C2 counterexample: from the initial state, a single `get` of the
never-constructed type 5 creates a default cell
(`entry(key).or_default()`, src/imp.rs line 130), and `get_all()` then
returns an entry for it even though its construction count is zero —
the claim says `get_all()` contains no entry for such a type. -/
theorem get_only_type_appears_in_get_all :
    consCount 5 [Op.get 5] = 0 ∧
    lookupStore (Engine.run ⟨true, [], []⟩ [Op.get 5]).global 5 = some {} ∧
    (Engine.run ⟨true, [], []⟩ [Op.get 5]).get_all = [([], ⟨0, 0, 0⟩)] :=
  ⟨rfl, rfl, rfl⟩

/-- C3 counterexample: `Store::dec` returns the unit value, so its return
value is identical for a decrement that reaches live = 0 and one that does
not; no function of the returned value can be the claimed zero flag. -/
theorem dec_return_carries_no_zero_flag :
    (Store.decRet ⟨1, 1, 1, ['A']⟩).2 = (Store.decRet ⟨2, 2, 2, ['A']⟩).2 ∧
    (Store.decRet ⟨1, 1, 1, ['A']⟩).1.live = 0 ∧
    (Store.decRet ⟨2, 2, 2, ['A']⟩).1.live = 1 ∧
    ¬ ∃ f : Unit → Bool,
        ∀ s : Store, f (Store.decRet s).2 = decide ((Store.decRet s).1.live = 0) := by
  refine ⟨rfl, rfl, rfl, ?_⟩
  rintro ⟨f, hf⟩
  have h1 := hf ⟨1, 1, 1, ['A']⟩
  have h2 := hf ⟨2, 2, 2, ['A']⟩
  simp [Store.decRet, Store.dec] at h1 h2
  exact Bool.noConfusion (h1.symm.trans h2)

/-- C3 amended: the decrement operation decreases `live` by exactly one,
leaves `total`, `max_live` and the name unchanged, and returns no value
(its return type is unit, so no zero flag is produced). -/
theorem dec_updates_live_only_returns_unit (s : Store) :
    (Store.decRet s).1.live = s.live - 1 ∧
    (Store.decRet s).1.total = s.total ∧
    (Store.decRet s).1.max_live = s.max_live ∧
    (Store.decRet s).1.name = s.name ∧
    (Store.decRet s).2 = () :=
  ⟨rfl, rfl, rfl, rfl, rfl⟩

/-- C4: evaluation of the code at the failing input. The trace constructs
one guard of type 7 on thread 1 and destroys it on thread 2: the peak
number of simultaneously live guards is K = 1 and one construction is
performed, yet the final snapshot is {total 2, max_live 2, live 2} rather
than the claimed max_live = 1 and total = 1, because the cross-thread
destruction takes the `do_dec` registry-fallback path and increments. -/
theorem peak_trace_snapshot_mismatch :
    peakLive 7 [Op.inc 1 7 ['T'], Op.dec 2 7] = 1 ∧
    consCount 7 [Op.inc 1 7 ['T'], Op.dec 2 7] = 1 ∧
    Engine.get (Engine.run ⟨true, [], []⟩ [Op.inc 1 7 ['T'], Op.dec 2 7]) 7 = ⟨2, 2, 2⟩ :=
  ⟨rfl, rfl, rfl⟩

/-- C5: one counter-cell increment adds exactly 1 to `total`, adds exactly
1 to `live`, replaces `max_live` with the maximum of the old `max_live`
and the new `live` value, and changes nothing else in the cell. -/
theorem inc_adds_one_and_maxes (s : Store) :
    (Store.inc s).total = s.total + 1 ∧
    (Store.inc s).live = s.live + 1 ∧
    (Store.inc s).max_live = max s.max_live (s.live + 1) ∧
    (Store.inc s).name = s.name :=
  ⟨rfl, rfl, rfl, rfl⟩

/-- C6: evaluation of the code at the failing input. After one
construction of type 7, `total` is 1; a destruction on a thread with a
cold cache then raises `total` to 2 — an operation other than a completed
construction increases `total`, against the claim. -/
theorem destruction_increases_total :
    (Engine.get (Engine.run ⟨true, [], []⟩ [Op.inc 1 7 ['T']]) 7).total = 1 ∧
    (Engine.get (Engine.run ⟨true, [], []⟩ [Op.inc 1 7 ['T'], Op.dec 2 7]) 7).total = 2 :=
  ⟨rfl, rfl⟩

instance : IsTotal (List Char × Counts) entryLe :=
  ⟨fun a b => le_total a.1 b.1⟩

instance : IsTrans (List Char × Counts) entryLe :=
  ⟨fun _ _ _ h1 h2 => le_trans h1 h2⟩

instance : IsAntisymm (List Char × Counts) entryLt :=
  ⟨fun a _ h1 h2 => absurd (lt_trans h1 h2) (lt_irrefl a.1)⟩

/-- A list sorted by the non-strict name order whose names are pairwise
distinct is sorted by the strict name order. -/
theorem sorted_lt_of_sorted_le (l : List (List Char × Counts))
    (hs : List.Sorted entryLe l) (hnd : (l.map Prod.fst).Nodup) :
    List.Sorted entryLt l := by
  have hne : l.Pairwise fun a b => a.1 ≠ b.1 := List.pairwise_map.mp hnd
  exact (hs.and hne).imp fun h => lt_of_le_of_ne h.1 h.2

/-- C9 amended: `get_all()` is always sorted by display name; and whenever
the display names in the registry are pairwise distinct, the sorted output
is uniquely determined by the registry contents, independent of the
iteration order the registry presents them in. -/
theorem get_all_sorted_and_deterministic (e : Engine)
    (l1 l2 : List (List Char × Counts))
    (hnd : (l1.map Prod.fst).Nodup) (hp : l1.Perm l2) :
    List.Sorted entryLe (Engine.get_all e) ∧ sortEntries l1 = sortEntries l2 := by
  constructor
  · exact List.sorted_insertionSort entryLe _
  · have p1 : List.Perm (sortEntries l1) l1 := List.perm_insertionSort entryLe l1
    have p2 : List.Perm (sortEntries l2) l2 := List.perm_insertionSort entryLe l2
    have s1 : List.Sorted entryLe (sortEntries l1) := List.sorted_insertionSort entryLe l1
    have s2 : List.Sorted entryLe (sortEntries l2) := List.sorted_insertionSort entryLe l2
    have hnd2 : (l2.map Prod.fst).Nodup := ((hp.map Prod.fst).nodup_iff).mp hnd
    have hnds1 : ((sortEntries l1).map Prod.fst).Nodup := ((p1.map Prod.fst).nodup_iff).mpr hnd
    have hnds2 : ((sortEntries l2).map Prod.fst).Nodup := ((p2.map Prod.fst).nodup_iff).mpr hnd2
    exact List.eq_of_perm_of_sorted (p1.trans (hp.trans p2.symm))
      (sorted_lt_of_sorted_le _ s1 hnds1) (sorted_lt_of_sorted_le _ s2 hnds2)

/-- C9 amended witness: a concrete registry with distinct names 'a', 'b'
yields a sorted `get_all()`, and the two iteration orders of its contents
sort to the same sequence. -/
theorem get_all_sorted_and_deterministic_witness :
    List.Sorted entryLe
        (Engine.get_all ⟨true, [(1, ⟨1, 1, 1, ['b']⟩), (2, ⟨2, 2, 2, ['a']⟩)], []⟩) ∧
    sortEntries [(['a'], ⟨2, 2, 2⟩), (['b'], ⟨1, 1, 1⟩)] =
      sortEntries [(['b'], ⟨1, 1, 1⟩), (['a'], ⟨2, 2, 2⟩)] :=
  get_all_sorted_and_deterministic ⟨true, [(1, ⟨1, 1, 1, ['b']⟩), (2, ⟨2, 2, 2, ['a']⟩)], []⟩
    [(['a'], ⟨2, 2, 2⟩), (['b'], ⟨1, 1, 1⟩)] [(['b'], ⟨1, 1, 1⟩), (['a'], ⟨2, 2, 2⟩)]
    (by decide) (by decide)

/-- C9 counterexample: the registry can reach a state with two cells that
share the display name (both created by `get()` of never-constructed
types, hence named `""`) but hold different counts; the two iteration
orders of those contents are permutations of each other, yet the stable
sort by name returns them in different orders — so for fixed registry
contents the output is not determined independently of the registry's
iteration order, contrary to the claim. -/
theorem duplicate_names_break_determinism :
    (Engine.run ⟨true, [], []⟩ [Op.get 5, Op.get 6, Op.inc 1 5 ['X']]).global.map
        (fun p => (p.2.type_name, p.2.read)) = [([], ⟨1, 1, 1⟩), ([], ⟨0, 0, 0⟩)] ∧
    List.Perm ([([], ⟨1, 1, 1⟩), ([], ⟨0, 0, 0⟩)] : List (List Char × Counts))
      [([], ⟨0, 0, 0⟩), ([], ⟨1, 1, 1⟩)] ∧
    sortEntries [([], ⟨1, 1, 1⟩), ([], ⟨0, 0, 0⟩)] = [([], ⟨1, 1, 1⟩), ([], ⟨0, 0, 0⟩)] ∧
    sortEntries [([], ⟨0, 0, 0⟩), ([], ⟨1, 1, 1⟩)] = [([], ⟨0, 0, 0⟩), ([], ⟨1, 1, 1⟩)] ∧
    sortEntries [([], ⟨1, 1, 1⟩), ([], ⟨0, 0, 0⟩)] ≠
      sortEntries [([], ⟨0, 0, 0⟩), ([], ⟨1, 1, 1⟩)] :=
  ⟨rfl, by decide, by decide, by decide, by decide⟩

/-- C10: a decrement for a key that is neither in the calling thread's
local cache nor in the global registry does nothing at all: the engine
state (registry, every cell, caches, flag) is returned unchanged. -/
theorem do_dec_unknown_key_noop (e : Engine) (t k : Nat)
    (h1 : e.cachedAt t k = false) (h2 : lookupStore e.global k = none) :
    Engine.do_dec e t k = e := by
  simp [Engine.do_dec, h1, h2]

/-- C10 witness: thread 2 decrements key 9, which is cached nowhere and has
no registry cell; the state is unchanged. -/
theorem do_dec_unknown_key_noop_witness :
    Engine.do_dec ⟨true, [(3, ⟨1, 1, 1, ['A']⟩)], [(1, 7)]⟩ 2 9 =
      ⟨true, [(3, ⟨1, 1, 1, ['A']⟩)], [(1, 7)]⟩ :=
  do_dec_unknown_key_noop ⟨true, [(3, ⟨1, 1, 1, ['A']⟩)], [(1, 7)]⟩ 2 9 (by decide) (by decide)

end Countme
